import Mathlib

/-!
Verification of the WHEP media server (Go) against its natural-language
specification.  The Go sources under `internal/stream` and `internal/server`
are shallowly embedded below: pure conversion kernels become Lean functions,
the stateful broadcaster / mount / pipeline code becomes explicit state
passing, and the concurrent loops become step functions on a state type
driven by an explicit input (one constructor per outcome that the Go
`select`/`if` structure distinguishes).  Machine integers are modelled as
`Int`/`Nat`; Go's arithmetic right shift `>> k` on `int` is floor division
by `2^k` and is embedded with `Int.fdiv`.
-/

namespace WHEP

/-! ## Sample broadcaster (`internal/stream/broadcaster.go`)

`SampleBroadcaster` keeps `sinks map[*sink]struct{}`; each `sink` owns a
buffered channel of capacity 4 and a worker goroutine that drains it.  We
model the map as a list of sinks carrying a numeric identity (standing for
the Go pointer), the channel as the list of queued samples, and the worker
goroutine's lifecycle through `spawnedWorkers` (goroutines started) and
`stoppedWorkers` (quit channels closed). -/

/-- Encoded media sample; the broadcaster treats it as opaque data. -/
abbrev Sample := Nat

/-- One registered sink: `ch chan media.Sample` (capacity 4) modelled by the
list of samples currently queued, `quit chan struct{}` modelled by
`quitClosed`, and an identity standing for the Go pointer `*sink`. -/
structure Sink where
  id : Nat
  queue : List Sample
  quitClosed : Bool
  deriving DecidableEq

instance : Inhabited Sink := ⟨⟨0, [], false⟩⟩

/-- Capacity of each per-sink queue: `make(chan media.Sample, 4)`. -/
def sinkQueueCapacity : Nat := 4

/-- Broadcaster state: the sink set plus bookkeeping for worker goroutines.
`next` is the allocator for fresh sink identities (a fresh Go `&sink{...}`
pointer is distinct from every live one). -/
structure Broadcaster where
  sinks : List Sink
  next : Nat
  spawnedWorkers : List Nat
  stoppedWorkers : List Nat
  deriving DecidableEq

/-- The closure returned by `Add`: either the no-op (track does not
implement `WriteSample`) or the remover for a particular sink. -/
inductive Detach where
  | noop : Detach
  | forSink (id : Nat) : Detach
  deriving DecidableEq

/-- `SampleBroadcaster.Add(track)`: the type assertion
`track.(interface{ WriteSample(media.Sample) error })` is modelled by the
boolean `ok`.  On failure it returns the unchanged broadcaster and a no-op
remover.  On success it allocates a fresh sink with an empty capacity-4
queue, spawns its worker, inserts it into the sink set and returns its
remover. -/
def addSink (b : Broadcaster) (ok : Bool) : Broadcaster × Detach :=
  if ok then
    ({ sinks := b.sinks ++ [⟨b.next, [], false⟩]
       next := b.next + 1
       spawnedWorkers := b.spawnedWorkers ++ [b.next]
       stoppedWorkers := b.stoppedWorkers },
     Detach.forSink b.next)
  else
    (b, Detach.noop)

/-- Running the closure returned by `Add`: `if _, ok := b.sinks[s]; ok`
guards removal, so only a sink still present is deleted and only then is
its quit channel closed. -/
def runDetach (d : Detach) (b : Broadcaster) : Broadcaster :=
  match d with
  | Detach.noop => b
  | Detach.forSink i =>
      if (b.sinks.filter (fun s => s.id = i)) ≠ [] then
        { b with
          sinks := b.sinks.filter (fun s => s.id ≠ i)
          stoppedWorkers := b.stoppedWorkers ++ [i] }
      else b

/-- The non-blocking enqueue `select { case s.ch <- sm: default: }`:
append when the queue has space, drop the sample otherwise. -/
def enqueueNB (sm : Sample) (s : Sink) : Sink :=
  if s.queue.length < sinkQueueCapacity then { s with queue := s.queue ++ [sm] } else s

/-- `SampleBroadcaster.WriteSample(sm)`: loop over all sinks performing one
non-blocking enqueue each; the Go function then returns `nil`. -/
def writeSample (sm : Sample) (b : Broadcaster) : Broadcaster :=
  { b with sinks := b.sinks.map (enqueueNB sm) }

/-- Well-formedness maintained by the allocator: every live sink identity is
below `next`, so a fresh sink is distinct from all live ones. -/
def bcWF (b : Broadcaster) : Prop := ∀ s ∈ b.sinks, s.id < b.next

/-! ## Encoder loop (`internal/stream/pipeline_vpx.go`, `PipelineVP8.loop`)
and metrics (`internal/stream/metrics.go`)

Each ticker wake-up executes one iteration of the `for` body.  The parts the
loop consumes from its environment — the frame returned by `Source.Next()`
and the encoder's response — are the input of the step function; the global
atomic counters are the state it updates. -/

/-- The four global atomic counters of `metrics.go` that the loop touches. -/
structure Counters where
  framesIn : Nat
  framesEncoded : Nat
  framesDropped : Nat
  samplesSent : Nat
  deriving DecidableEq

/-- All counters zero, as after `ResetCounters`. -/
def Counters.zero : Counters := ⟨0, 0, 0, 0⟩

/-- Source pixel format reported by `PixFmt()`; the loop defaults to
`"bgra"` when the source reports none. -/
inductive PixFmt where
  | bgra : PixFmt
  | uyvy422 : PixFmt
  deriving DecidableEq

/-- Response of `enc.EncodeI420` for one frame: an error, or a (possibly
empty) list of access units together with the count of samples the
non-blocking `enqueue` accepted. -/
inductive EncOut where
  | err : EncOut
  | packets (n : Nat) (accepted : Nat) : EncOut
  deriving DecidableEq

/-- Environment input for one iteration: either `Source.Next()` reported
end-of-stream (`ok == false`), or it handed a frame of `len` bytes and, if
the frame is large enough to be converted and encoded, the encoder answers
as `enc`. -/
inductive TickIn where
  | srcEnd : TickIn
  | frame (len : Nat) (enc : EncOut) : TickIn
  deriving DecidableEq

/-- Whether the loop keeps running after the iteration (`continue`) or the
`loop` function returned. -/
inductive TickStatus where
  | next : TickStatus
  | terminated : TickStatus
  deriving DecidableEq

/-- Observable result of one iteration: updated counters, loop status, and
whether the colour conversion and the encoder were invoked at all. -/
structure TickResult where
  counters : Counters
  status : TickStatus
  convCalled : Bool
  encCalled : Bool
  deriving DecidableEq

/-- Minimum packed-buffer size the loop demands before converting:
`w*h*2` for UYVY 4:2:2, `w*h*4` for BGRA. -/
def requiredLen (fmt : PixFmt) (w h : Nat) : Nat :=
  match fmt with
  | PixFmt.uyvy422 => w * h * 2
  | PixFmt.bgra => w * h * 4

/-- `incSamplesSent(n)` adds `n` when positive (`if n > 0`); on `Nat` adding
`n` is the same in both branches. -/
def incSamplesSent (c : Counters) (n : Nat) : Counters :=
  { c with samplesSent := c.samplesSent + n }

/-- One iteration of `PipelineVP8.loop` (lines 81–107): pull `Next()`,
`incFramesIn()`, return on end-of-stream, skip the tick when the packed
buffer is smaller than `requiredLen`, otherwise convert, encode, count the
frame as dropped (zero access units) or encoded (at least one), and count
the accepted enqueues in `samples_sent`.  An encoder error returns from the
loop. -/
def tick (fmt : PixFmt) (w h : Nat) (inp : TickIn) (c : Counters) : TickResult :=
  match inp with
  | TickIn.srcEnd =>
      ⟨{ c with framesIn := c.framesIn + 1 }, TickStatus.terminated, false, false⟩
  | TickIn.frame len enc =>
      let c1 := { c with framesIn := c.framesIn + 1 }
      if len < requiredLen fmt w h then
        ⟨c1, TickStatus.next, false, false⟩
      else
        match enc with
        | EncOut.err => ⟨c1, TickStatus.terminated, true, true⟩
        | EncOut.packets n accepted =>
            let c2 :=
              if n = 0 then { c1 with framesDropped := c1.framesDropped + 1 }
              else { c1 with framesEncoded := c1.framesEncoded + 1 }
            ⟨incSamplesSent c2 accepted, TickStatus.next, true, true⟩

/-- The invariant of spec §8: frames pulled in dominate frames settled. -/
def countersInv (c : Counters) : Prop :=
  c.framesEncoded + c.framesDropped ≤ c.framesIn

/-- The claim's per-tick case analysis, read literally: a tick that
increments neither `frames_encoded` nor `frames_dropped` must be one that
was skipped because the pulled buffer was too small. -/
def claimTickCases (fmt : PixFmt) (w h : Nat) (inp : TickIn) (c : Counters) : Prop :=
  let r := tick fmt w h inp c
  r.counters.framesEncoded + r.counters.framesDropped = c.framesEncoded + c.framesDropped →
    ∃ len enc, inp = TickIn.frame len enc ∧ len < requiredLen fmt w h

/-- Size guard at the head of `VP8Encoder.EncodeI420` (`vpx.go` lines
117–127): plane buffers shorter than `w*h` (Y) or `(w/2)*(h/2)` (U, V) make
the call return the `"bad plane sizes"` error before any plane copy. -/
def encodeI420SizeOK (w h yLen uLen vLen : Nat) : Bool :=
  ¬(yLen < w * h ∨ uLen < (w / 2) * (h / 2) ∨ vLen < (w / 2) * (h / 2))

/-! ## Dimension normalisation (`PipelineVP8.start`, lines 46–50, and
`NDISource.SetOutputSize`) -/

/-- The normalisation applied by `PipelineVP8.start` to each of width and
height before `NewVP8Encoder` is constructed:
`if d%2 != 0 { d-- }; if d < 2 { d = 2 }`.  Go's `%` on `int` has the sign
of the dividend, but the test `d % 2 != 0` agrees with `Int.emod` parity. -/
def pipelineNormDim (d : Int) : Int :=
  let d1 := if d % 2 ≠ 0 then d - 1 else d
  if d1 < 2 then 2 else d1

/-- `NDISource.SetOutputSize` applies the same normalisation to the
requested width and height (`w%2 != 0 → w--` etc.) before storing
`outW, outH`. -/
def setOutputSizeDims (w h : Int) : Int × Int :=
  (pipelineNormDim w, pipelineNormDim h)

/-- Dimensions handed to `NewVP8Encoder` by `start`: the source-probed
dimensions (when `Last()` reported a frame with positive size within the
1 s window) override the configured ones, then both are normalised. -/
def startEncoderDims (cfgW cfgH : Int) (probed : Option (Int × Int)) : Int × Int :=
  let wh :=
    match probed with
    | some (w, h) => if w > 0 ∧ h > 0 then (w, h) else (cfgW, cfgH)
    | none => (cfgW, cfgH)
  (pipelineNormDim wh.1, pipelineNormDim wh.2)

/-! ## One-shot stops (`PipelineVP8.Stop`, `NDISource.Stop`,
`WhepServer.closeSession`) -/

/-- `PipelineVP8` lifecycle state: the `stopped int32` one-shot flag and
the `quit` channel. -/
structure PipeState where
  stopped : Bool
  quitClosed : Bool
  deriving DecidableEq

/-- `PipelineVP8.Stop`: `CompareAndSwapInt32(&p.stopped, 0, 1)` guards the
single `close(p.quit)`. -/
def pipeStop (p : PipeState) : PipeState :=
  if p.stopped then p else { stopped := true, quitClosed := true }

/-- `NDISource` lifecycle state: `stopped int32`, `quit` channel and the
receiver handle. -/
structure SrcState where
  stopped : Bool
  quitClosed : Bool
  rxClosed : Bool
  deriving DecidableEq

/-- `NDISource.Stop`: the compare-and-swap on `s.stopped` guards
`close(s.quit)` and `s.rx.Close()`. -/
def srcStop (s : SrcState) : SrcState :=
  if s.stopped then s else { stopped := true, quitClosed := true, rxClosed := true }

/-- Server state as seen by `closeSession`: the session registry (the map
lookup-and-delete is the one-shot guard for the per-session cleanup), a
count of how many times the per-session cleanup (cancel, detach, stop,
source stop, pc close) actually ran, and the shared pipeline slot with its
teardown count. -/
structure SrvState where
  sessions : Finset String
  cleanups : String → Nat
  sharePresent : Bool
  shareStops : Nat

/-- `WhepServer.closeSession(id)` (server.go lines 1185–1232): look up and
delete the session under the lock; only when it was present run its cleanup
and its mount detach.  Afterwards, when no sessions remain and a shared
pipeline exists, tear the shared pipeline down and clear the slot. -/
def closeSession (id : String) (st : SrvState) : SrvState :=
  let st1 :=
    if id ∈ st.sessions then
      { st with
        sessions := st.sessions.erase id
        cleanups := fun j => if j = id then st.cleanups j + 1 else st.cleanups j }
    else st
  if st1.sessions = ∅ ∧ st1.sharePresent then
    { st1 with sharePresent := false, shareStops := st1.shareStops + 1 }
  else st1

/-! ## Per-source mounts (`internal/server/server.go`, `ndiMount`)

An `ndiMount` carries its session-id set, the idle `*time.Timer`, the
provisional `noSessTimer`, and is removed from `s.mounts` when
`teardownMountIfIdle` stops it.  A `*time.Timer` field is "armed" while the
`AfterFunc` callback is still pending; `Timer.Stop` (in `addSession`)
disarms it, and firing consumes it.

The steps below are the individual critical sections of the code, so an
execution is an arbitrary interleaving of them:
- `ensureMount` publishes the mount into `s.mounts` (line 545) with the
  session set empty and NO timer armed; only at its very end (lines
  653–662), after source construction and pipeline start ran outside any
  lock, does it arm the provisional timer — and on the pipeline-start
  error return (lines 596–598) it never does, leaving the published,
  unarmed mount in the registry permanently.  Publication and arming are
  therefore two separate steps, and the arming step is optional.
- `addSession` / `removeSession` each run under the mount's mutex.
- `teardownMountIfIdle` is NOT atomic: the registry lookup plus
  `refCount()` check and the later teardown are separate critical
  sections (the lookup and the read-only count are merged into one step
  here since they mutate nothing).  `callbacks` counts timer callbacks
  that have fired but not yet done their check; `pending` counts
  callbacks whose check passed but whose teardown has not run yet, so an
  `addSession` can interleave between check and teardown. -/

/-- Observable mount state: the session-id set, whether each timer is armed
(callback still pending), whether the mount has been torn down and removed
from the registry, and the progress of in-flight `teardownMountIfIdle`
callbacks (`callbacks`: fired, before their `refCount` check; `pending`:
check passed, teardown not yet run). -/
structure MountState where
  sessions : Finset String
  idleArmed : Bool
  noSessArmed : Bool
  stopped : Bool
  callbacks : Nat
  pending : Nat
  deriving DecidableEq

/-- Mount state right after `ensureMount` created and published it into
`s.mounts` (server.go line 545): empty session set, no timer armed yet. -/
def mountCreated : MountState :=
  { sessions := ∅, idleArmed := false, noSessArmed := false, stopped := false
    callbacks := 0, pending := 0 }

/-- `ensureMount`'s final step (lines 653–662), run later and possibly
never: arm the provisional no-session timer when the session set is still
empty and none is armed (`if len(m.sessions) == 0 && m.noSessTimer == nil`). -/
def armNoSess (m : MountState) : MountState :=
  if m.sessions = ∅ ∧ m.noSessArmed = false then { m with noSessArmed := true } else m

/-- `ndiMount.addSession(id)` (lines 103–116): insert the id, `Stop` and
clear both the idle timer and the provisional timer. -/
def mountAdd (id : String) (m : MountState) : MountState :=
  { m with sessions := insert id m.sessions, idleArmed := false, noSessArmed := false }

/-- `ndiMount.removeSession(id, onIdle)` (lines 119–127): delete the id;
when the set became empty and no idle timer is armed, arm the 60 s idle
timer. -/
def mountRemove (id : String) (m : MountState) : MountState :=
  let ss := m.sessions.erase id
  { m with
    sessions := ss
    idleArmed := if ss = ∅ ∧ m.idleArmed = false then true else m.idleArmed }

/-- The idle timer fires: the timer is consumed and a
`teardownMountIfIdle` callback starts running. -/
def mountFireIdle (m : MountState) : MountState :=
  { m with idleArmed := false, callbacks := m.callbacks + 1 }

/-- The provisional no-session timer fires; same callback body. -/
def mountFireNoSess (m : MountState) : MountState :=
  { m with noSessArmed := false, callbacks := m.callbacks + 1 }

/-- A running callback performs its registry lookup and `refCount()`
check: if the mount was already deleted the callback just ends; if
sessions remain (`refCount() > 0`) it returns without teardown; only when
the set is empty does it go on to the teardown (now counted in
`pending`). -/
def mountCheck (m : MountState) : MountState :=
  if m.stopped = true then { m with callbacks := m.callbacks - 1 }
  else if m.sessions = ∅ then
    { m with callbacks := m.callbacks - 1, pending := m.pending + 1 }
  else { m with callbacks := m.callbacks - 1 }

/-- A callback whose check passed performs the teardown body under the
mount's mutex and deletes the mount from the registry — regardless of any
`addSession` that interleaved since the check. -/
def mountCommitTeardown (m : MountState) : MountState :=
  { m with stopped := true, pending := m.pending - 1 }

/-- Mount states reachable from publication.  No step is guarded on
`stopped`: a racing handler can still hold the mount object after
teardown.  `removeSession` comes from `closeSession` of a session
previously attached to this mount; a timer can fire only while armed; the
check and teardown steps need a callback at the corresponding stage. -/
inductive MountReach : MountState → Prop where
  | created : MountReach mountCreated
  | armNoSessStep (m : MountState) : MountReach m → MountReach (armNoSess m)
  | add (m : MountState) (id : String) : MountReach m → MountReach (mountAdd id m)
  | remove (m : MountState) (id : String) : MountReach m → id ∈ m.sessions →
      MountReach (mountRemove id m)
  | idleFire (m : MountState) : MountReach m → m.idleArmed = true →
      MountReach (mountFireIdle m)
  | noSessFire (m : MountState) : MountReach m → m.noSessArmed = true →
      MountReach (mountFireNoSess m)
  | check (m : MountState) : MountReach m → 0 < m.callbacks →
      MountReach (mountCheck m)
  | teardownCommit (m : MountState) : MountReach m → 0 < m.pending →
      MountReach (mountCommitTeardown m)

/-- Invariant claimed by spec §8, read literally:
`(m.sessions empty) ⇔ (m.idle_timer armed OR m.state = Stopped)`. -/
def mountInvClaim (m : MountState) : Prop :=
  m.sessions = ∅ ↔ (m.idleArmed = true ∨ m.stopped = true)

/-! ## Variant-key slugs (`WhepServer.slugKey`, server.go lines 711–740) -/

/-- Characters the slug keeps: `('a' ≤ r && r ≤ 'z') || ('0' ≤ r && r ≤ '9')`. -/
def slugSafe (c : Char) : Bool :=
  ('a' ≤ c && c ≤ 'z') || ('0' ≤ c && c ≤ '9')

/-- Per-rune lowercasing of `strings.ToLower`, restricted to what the slug
can observe.  `Char.toLower` lowercases ASCII `A`–`Z` exactly as Go does.
Of all other runes, exactly two have a simple Unicode lowercase mapping
that lands back in ASCII — U+0130 (Latin capital I with dot above, which
Go lowercases to `i`) and U+212A (Kelvin sign, which Go lowercases to
`k`) — and they are mapped explicitly.  Every remaining rune's Unicode
lowercase is itself outside `a`–`z`/`0`–`9`, so keeping such a rune
unchanged is indistinguishable after the safe-character filter below. -/
def goToLower (c : Char) : Char :=
  if c = Char.ofNat 0x0130 then 'i'
  else if c = Char.ofNat 0x212A then 'k'
  else Char.toLower c

/-- Lowercase the base and replace every unsafe character by `'-'`
(the `strings.ToLower` plus the per-rune loop writing into `sb`). -/
def slugMap (base : List Char) : List Char :=
  (base.map goToLower).map (fun c => if slugSafe c then c else '-')

/-- `strings.Trim(s, "-")`: drop every leading and trailing `'-'`. -/
def trimDashes (s : List Char) : List Char :=
  ((s.dropWhile (fun c => c = '-')).reverse.dropWhile (fun c => c = '-')).reverse

/-- Worker for one `strings.ReplaceAll(s, "--", "-")` pass with a pending
head character: on a `--` match, emit one `-` and resume two characters
later; otherwise emit the pending character and slide by one. -/
def replaceDDAux : Char → List Char → List Char
  | c, [] => [c]
  | c, c2 :: rest =>
      if c = '-' ∧ c2 = '-' then
        '-' :: (match rest with
                | [] => []
                | c3 :: rest2 => replaceDDAux c3 rest2)
      else c :: replaceDDAux c2 rest

/-- One pass of `strings.ReplaceAll(s, "--", "-")`: scan left to right,
replacing each non-overlapping `--` by `-`. -/
def replaceDD : List Char → List Char
  | [] => []
  | c :: rest => replaceDDAux c rest

/-- Worker for `strings.Contains(s, "--")` with a pending head character. -/
def containsDDAux : Char → List Char → Bool
  | _, [] => false
  | c, c2 :: rest => if c = '-' ∧ c2 = '-' then true else containsDDAux c2 rest

/-- `strings.Contains(s, "--")`. -/
def containsDD : List Char → Bool
  | [] => false
  | c :: rest => containsDDAux c rest

/-- The `for strings.Contains(s, "--") { s = ReplaceAll(s, "--", "-") }`
loop, with explicit fuel; each productive pass strictly shortens the
string, so fuel `s.length` reaches the loop's fixpoint. -/
def collapseIter : Nat → List Char → List Char
  | 0, s => s
  | fuel + 1, s => if containsDD s then collapseIter fuel (replaceDD s) else s

/-- Worker for dash-run collapsing with a pending head character: a dash
followed by a dash is dropped, everything else is kept. -/
def dedupDashesAux : Char → List Char → List Char
  | c, [] => [c]
  | c, c2 :: rest =>
      if c = '-' ∧ c2 = '-' then dedupDashesAux c2 rest
      else c :: dedupDashesAux c2 rest

/-- Collapse every maximal run of dashes to a single dash (the fixpoint the
ReplaceAll loop computes). -/
def dedupDashes : List Char → List Char
  | [] => []
  | c :: rest => dedupDashesAux c rest

/-- Body of `slugKey` after base selection: lowercase and map, trim
dashes, run the collapse loop (fuel `s.length` suffices: each productive
pass shortens the string), and replace an empty result by `"src"`. -/
def slugCore (base : String) : String :=
  let s := trimDashes (slugMap base.toList)
  let s2 := collapseIter s.length s
  if s2 = [] then "src" else String.mk s2

/-- `slugKey(name, url)`: base is the url, else the name, else a fresh
UUID (passed in explicitly, since `uuid.New()` is nondeterministic). -/
def slugKey (name url uuid : String) : String :=
  slugCore (if url ≠ "" then url else if name ≠ "" then name else uuid)

/-- The slug format stated by the spec: lowercased; unsafe characters
collapse to `-` with runs collapsed and leading/trailing `-` removed; an
empty result collapses to `"src"`. -/
def slugSpec (base : String) : String :=
  let s := dedupDashes (trimDashes (slugMap base.toList))
  if s = [] then "src" else String.mk s

/-! ## Portable colour conversions (`internal/stream/bgra_i420.go` and the
`I420ToBGRA` file)

Byte buffers are embedded as functions from flat byte index to value; the
Go loops write each output cell exactly once, so an output buffer is the
function mapping each in-range index to the value the loop stores there
(out-of-range indices are untouched by the Go code and unconstrained
here).  Go's `>> k` on `int` is an arithmetic shift, i.e. floor division. -/

/-- Arithmetic right shift by 8 (`x >> 8` on a Go `int`). -/
def shr8 (x : Int) : Int := Int.fdiv x 256

/-- Arithmetic right shift by 2 (`x >> 2` on a Go `int`). -/
def shr2 (x : Int) : Int := Int.fdiv x 4

/-- `clamp8` from `bgra_i420.go`: saturate to `[0, 255]`. -/
def clamp8 (x : Int) : Int := if x < 0 then 0 else if x > 255 then 255 else x

/-- Luma written by `BGRAtoI420` at `y[yrow*w+x]`:
`Y := (66*r + 129*g + 25*b + 128) >> 8; y[...] = clamp8(Y + 16)` with
`b,g,r` read at `off := (yrow*w+x)*4`. -/
def bgraYAt (bgra : Nat → Int) (w yrow x : Nat) : Int :=
  let off := (yrow * w + x) * 4
  let b := bgra off
  let g := bgra (off + 1)
  let r := bgra (off + 2)
  clamp8 (shr8 (66 * r + 129 * g + 25 * b + 128) + 16)

/-- The 2×2 block sums `(bSum, gSum, rSum)` accumulated by the chroma loop
for the block whose top-left pixel is `(yrow, x) = (2*cy, 2*cx)`. -/
def bgraBlockSums (bgra : Nat → Int) (w cy cx : Nat) : Int × Int × Int :=
  let idx := fun (dy dx : Nat) => ((2 * cy + dy) * w + (2 * cx + dx)) * 4
  (bgra (idx 0 0) + bgra (idx 0 1) + bgra (idx 1 0) + bgra (idx 1 1),
   bgra (idx 0 0 + 1) + bgra (idx 0 1 + 1) + bgra (idx 1 0 + 1) + bgra (idx 1 1 + 1),
   bgra (idx 0 0 + 2) + bgra (idx 0 1 + 2) + bgra (idx 1 0 + 2) + bgra (idx 1 1 + 2))

/-- Chroma U written by `BGRAtoI420` at `u[cy*(w/2)+cx]`:
`r := rSum >> 2; ...; U := ((-38*r - 74*g + 112*b + 128) >> 8) + 128`. -/
def bgraUAt (bgra : Nat → Int) (w cy cx : Nat) : Int :=
  let s := bgraBlockSums bgra w cy cx
  let b := shr2 s.1
  let g := shr2 s.2.1
  let r := shr2 s.2.2
  clamp8 (shr8 (-38 * r - 74 * g + 112 * b + 128) + 128)

/-- Chroma V written by `BGRAtoI420` at `v[cy*(w/2)+cx]`:
`Vv := ((112*r - 94*g - 18*b + 128) >> 8) + 128`. -/
def bgraVAt (bgra : Nat → Int) (w cy cx : Nat) : Int :=
  let s := bgraBlockSums bgra w cy cx
  let b := shr2 s.1
  let g := shr2 s.2.1
  let r := shr2 s.2.2
  clamp8 (shr8 (112 * r - 94 * g - 18 * b + 128) + 128)

/-- The Y output plane of `BGRAtoI420` as a flat buffer: index
`i = yrow*w + x` holds `bgraYAt` of that pixel. -/
def bgraToI420y (bgra : Nat → Int) (w : Nat) : Nat → Int :=
  fun i => bgraYAt bgra w (i / w) (i % w)

/-- The U output plane of `BGRAtoI420` as a flat buffer over
`(w/2)`-wide rows. -/
def bgraToI420u (bgra : Nat → Int) (w : Nat) : Nat → Int :=
  fun i => bgraUAt bgra w (i / (w / 2)) (i % (w / 2))

/-- The V output plane of `BGRAtoI420` as a flat buffer. -/
def bgraToI420v (bgra : Nat → Int) (w : Nat) : Nat → Int :=
  fun i => bgraVAt bgra w (i / (w / 2)) (i % (w / 2))

/-- The `(b, g, r)` triple `I420ToBGRA` computes for pixel `(yy, xx)`:
`c := Y-16` (floored at 0), `d := U-128`, `e := V-128`, then the `298/409/
100/208/516` integer kernel, each channel clamped to `[0, 255]`. -/
def i420PixelAt (y u v : Nat → Int) (w yy xx : Nat) : Int × Int × Int :=
  let Y := y (yy * w + xx)
  let U := u ((yy / 2) * (w / 2) + xx / 2)
  let V := v ((yy / 2) * (w / 2) + xx / 2)
  let c0 := Y - 16
  let d := U - 128
  let e := V - 128
  let c := if c0 < 0 then 0 else c0
  (clamp8 (shr8 (298 * c + 516 * d + 128)),
   clamp8 (shr8 (298 * c - 100 * d - 208 * e + 128)),
   clamp8 (shr8 (298 * c + 409 * e + 128)))

/-- The BGRA byte at channel index `k` of a `(b, g, r)` pixel: the layout
`out[off+0] = b`, `out[off+1] = g`, `out[off+2] = r`, `out[off+3] = 255`
used by `I420ToBGRA`'s stores. -/
def chanSel (c : Int × Int × Int) : Nat → Int
  | 0 => c.1
  | 1 => c.2.1
  | 2 => c.2.2
  | _ => 255

/-- `I420ToBGRA` output as a flat BGRA buffer: at `off := (yy*w+xx)*4` the
loop stores the pixel's channels in BGRA byte order. -/
def i420ToBGRAflat (y u v : Nat → Int) (w : Nat) : Nat → Int := fun off =>
  chanSel (i420PixelAt y u v w (off / 4 / w) (off / 4 % w)) (off % 4)

/-- The round trip of claim C8: convert a BGRA image to I420 with the
portable kernel, then back to BGRA with the portable kernel. -/
def roundTrip (bgra : Nat → Int) (w : Nat) : Nat → Int :=
  i420ToBGRAflat (bgraToI420y bgra w) (bgraToI420u bgra w) (bgraToI420v bgra w) w

/-- A BGRA image that is constant on each 2×2 pixel block: pixel
`(row, col)` has the colour `f (row/2) (col/2) = (b, g, r)`; alpha 255. -/
def mkBlockBGRA (f : Nat → Nat → Int × Int × Int) (w : Nat) : Nat → Int := fun off =>
  chanSel (f (off / 4 / w / 2) (off / 4 % w / 2)) (off % 4)

/-- A colour at the saturated 8-bit extremes: every channel is 0 or 255. -/
def saturated (c : Int × Int × Int) : Prop :=
  (c.1 = 0 ∨ c.1 = 255) ∧ (c.2.1 = 0 ∨ c.2.1 = 255) ∧ (c.2.2 = 0 ∨ c.2.2 = 255)

/-- What the round trip does to one colour of a 2×2-constant block (block
sums are four copies of the colour, so `>> 2` recovers it exactly). -/
def roundTripColour (c : Int × Int × Int) : Int × Int × Int :=
  let Y := clamp8 (shr8 (66 * c.2.2 + 129 * c.2.1 + 25 * c.1 + 128) + 16)
  let U := clamp8 (shr8 (-38 * shr2 (4 * c.2.2) - 74 * shr2 (4 * c.2.1) +
      112 * shr2 (4 * c.1) + 128) + 128)
  let V := clamp8 (shr8 (112 * shr2 (4 * c.2.2) - 94 * shr2 (4 * c.2.1) -
      18 * shr2 (4 * c.1) + 128) + 128)
  let c0 := Y - 16
  let d := U - 128
  let e := V - 128
  let cc := if c0 < 0 then 0 else c0
  (clamp8 (shr8 (298 * cc + 516 * d + 128)),
   clamp8 (shr8 (298 * cc - 100 * d - 208 * e + 128)),
   clamp8 (shr8 (298 * cc + 409 * e + 128)))

/-- Concrete 2×2 BGRA image for the C8 counterexample: columns alternate
pure red `(b,g,r) = (0,0,255)` and pure blue `(255,0,0)`; every colour
channel is at a saturated extreme. -/
def cexBGRA : Nat → Int := fun i =>
  [(0 : Int), 0, 255, 255, 255, 0, 0, 255, 0, 0, 255, 255, 255, 0, 0, 255].getD i 0

/-- Concrete broadcaster used to witness the fanout theorems: sink 0 has a
full queue, sink 1 has one queued sample. -/
def witBC : Broadcaster :=
  { sinks := [⟨0, [1, 2, 3, 4], false⟩, ⟨1, [9], false⟩]
    next := 2
    spawnedWorkers := [0, 1]
    stoppedWorkers := [] }

end WHEP

namespace WHEP

/-! # Theorems -/

/-- C1: `WriteSample` performs one non-blocking enqueue per registered
sink: the sink set keeps its size and identities, a sink whose capacity-4
queue has space receives the sample at the tail of its queue, a sink whose
queue is full keeps its queue unchanged (the sample is dropped for that
sink only), and no other sink field is touched, so the producer returns
after the per-sink conditional append. -/
theorem writeSample_fanout (b : Broadcaster) (sm : Sample) (i : Nat)
    (h : i < b.sinks.length) :
    (writeSample sm b).sinks.length = b.sinks.length ∧
    ((writeSample sm b).sinks.getD i default).id = (b.sinks.getD i default).id ∧
    ((writeSample sm b).sinks.getD i default).quitClosed
      = (b.sinks.getD i default).quitClosed ∧
    ((b.sinks.getD i default).queue.length < sinkQueueCapacity →
      ((writeSample sm b).sinks.getD i default).queue
        = (b.sinks.getD i default).queue ++ [sm]) ∧
    (¬ (b.sinks.getD i default).queue.length < sinkQueueCapacity →
      ((writeSample sm b).sinks.getD i default).queue = (b.sinks.getD i default).queue) := by
  have hlen : (writeSample sm b).sinks.length = b.sinks.length := by
    simp [writeSample]
  have hi : i < (writeSample sm b).sinks.length := by rw [hlen]; exact h
  have key : (writeSample sm b).sinks.getD i default
      = enqueueNB sm (b.sinks.getD i default) := by
    rw [List.getD_eq_getElem _ _ hi, List.getD_eq_getElem _ _ h]
    simp [writeSample]
  rw [key]
  unfold enqueueNB
  refine ⟨hlen, ?_, ?_, ?_, ?_⟩ <;> split <;> simp_all

/-- Witness for C1: in `witBC`, writing sample 7 drops it at the full
sink 0 and appends it at sink 1. -/
theorem writeSample_fanout_witness :
    (0 < witBC.sinks.length ∧
      (¬ (witBC.sinks.getD 0 default).queue.length < sinkQueueCapacity →
        ((writeSample 7 witBC).sinks.getD 0 default).queue
          = (witBC.sinks.getD 0 default).queue)) ∧
    (1 < witBC.sinks.length ∧
      ((witBC.sinks.getD 1 default).queue.length < sinkQueueCapacity →
        ((writeSample 7 witBC).sinks.getD 1 default).queue
          = (witBC.sinks.getD 1 default).queue ++ [7])) :=
  ⟨⟨by decide, (writeSample_fanout witBC 7 0 (by decide)).2.2.2.2⟩,
   ⟨by decide, (writeSample_fanout witBC 7 1 (by decide)).2.2.2.1⟩⟩

/-- C4: adding a sink and then invoking the returned detach closure
restores the broadcaster's sink set to its pre-`Add` state and stops the
new sink's worker; invoking the same closure a second time changes
nothing. -/
theorem add_then_detach (b : Broadcaster) (h : bcWF b) :
    (runDetach (addSink b true).2 (addSink b true).1).sinks = b.sinks ∧
    b.next ∈ (runDetach (addSink b true).2 (addSink b true).1).stoppedWorkers ∧
    runDetach (addSink b true).2 (runDetach (addSink b true).2 (addSink b true).1)
      = runDetach (addSink b true).2 (addSink b true).1 := by
  have hfresh : ∀ s ∈ b.sinks, s.id ≠ b.next := fun s hs => Nat.ne_of_lt (h s hs)
  have hfilter : b.sinks.filter (fun s => decide (s.id ≠ b.next)) = b.sinks := by
    rw [List.filter_eq_self]
    intro s hs
    simpa using hfresh s hs
  have hmem : b.sinks.filter (fun s => decide (s.id = b.next)) = [] := by
    rw [List.filter_eq_nil_iff]
    intro s hs
    simpa using hfresh s hs
  have hguard : ((b.sinks ++ [(⟨b.next, [], false⟩ : Sink)]).filter
      (fun s => decide (s.id = b.next))) ≠ [] := by
    rw [List.filter_append, hmem]
    simp
  have hrem : ((b.sinks ++ [(⟨b.next, [], false⟩ : Sink)]).filter
      (fun s => decide (s.id ≠ b.next))) = b.sinks := by
    rw [List.filter_append, hfilter]
    simp
  have step : runDetach (addSink b true).2 (addSink b true).1 =
      { sinks := b.sinks, next := b.next + 1,
        spawnedWorkers := b.spawnedWorkers ++ [b.next],
        stoppedWorkers := b.stoppedWorkers ++ [b.next] } := by
    show runDetach (Detach.forSink b.next)
        (⟨b.sinks ++ [(⟨b.next, [], false⟩ : Sink)], b.next + 1,
          b.spawnedWorkers ++ [b.next], b.stoppedWorkers⟩ : Broadcaster) = _
    unfold runDetach
    dsimp only
    rw [if_pos hguard, hrem]
  have hguard2 : ¬ ((b.sinks.filter (fun s => decide (s.id = b.next))) ≠ []) := by
    rw [hmem]
    simp
  refine ⟨by rw [step], by rw [step]; simp, ?_⟩
  rw [step]
  show runDetach (Detach.forSink b.next) _ = _
  unfold runDetach
  dsimp only
  rw [if_neg hguard2]

/-- Witness for C4: on the concrete broadcaster `witBC` (whose sink ids 0
and 1 are below `next = 2`), add-then-detach returns the original two-sink
set, records worker 2 as stopped, and a second detach is a no-op. -/
theorem add_then_detach_witness :
    (runDetach (addSink witBC true).2 (addSink witBC true).1).sinks = witBC.sinks ∧
    witBC.next ∈ (runDetach (addSink witBC true).2 (addSink witBC true).1).stoppedWorkers ∧
    runDetach (addSink witBC true).2
        (runDetach (addSink witBC true).2 (addSink witBC true).1)
      = runDetach (addSink witBC true).2 (addSink witBC true).1 :=
  add_then_detach witBC (by unfold bcWF witBC; decide)

/-- C10: `Add` with a track that does not implement
`WriteSample(media.Sample)` leaves the broadcaster completely unchanged
(sink set and spawned workers included), returns the no-op closure — which
changes no state wherever it is invoked — and subsequent `WriteSample`
calls behave exactly as if `Add` had never happened. -/
theorem add_without_writer (b b2 : Broadcaster) (sm : Sample) :
    (addSink b false).1 = b ∧
    (addSink b false).2 = Detach.noop ∧
    (addSink b false).1.sinks = b.sinks ∧
    (addSink b false).1.spawnedWorkers = b.spawnedWorkers ∧
    runDetach (addSink b false).2 b2 = b2 ∧
    writeSample sm (addSink b false).1 = writeSample sm b := by
  refine ⟨rfl, rfl, rfl, rfl, rfl, rfl⟩

/-- C5: the three teardown operations are one-shot idempotent.
`PipelineVP8.Stop` and `NDISource.Stop` are guarded by a
compare-and-swap on their `stopped` flag, and `closeSession`'s
lookup-and-delete of the session id plays the same role; hence calling any
of them `n ≥ 1` times from any state equals calling it once. -/
theorem stops_idempotent (n : Nat) (hn : 1 ≤ n) :
    (∀ p : PipeState, pipeStop^[n] p = pipeStop p) ∧
    (∀ s : SrcState, srcStop^[n] s = srcStop s) ∧
    (∀ (st : SrvState) (id : String), (closeSession id)^[n] st = closeSession id st) := by
  have hpipe : ∀ p : PipeState, pipeStop (pipeStop p) = pipeStop p := by
    intro p
    unfold pipeStop
    split <;> simp
  have hsrc : ∀ s : SrcState, srcStop (srcStop s) = srcStop s := by
    intro s
    unfold srcStop
    split <;> simp
  have hclose : ∀ (st : SrvState) (id : String),
      closeSession id (closeSession id st) = closeSession id st := by
    intro st id
    unfold closeSession
    by_cases hidin : id ∈ st.sessions <;>
      simp only [hidin, if_pos, if_neg, not_false_iff] <;>
      split <;>
      simp_all [Finset.erase_eq_of_not_mem]
  obtain ⟨m, rfl⟩ : ∃ m, n = m + 1 := ⟨n - 1, by omega⟩
  clear hn
  refine ⟨?_, ?_, ?_⟩
  · intro p
    induction m with
    | zero => simp
    | succ k ih => rw [Function.iterate_succ_apply', ih, hpipe]
  · intro s
    induction m with
    | zero => simp
    | succ k ih => rw [Function.iterate_succ_apply', ih, hsrc]
  · intro st id
    induction m with
    | zero => simp
    | succ k ih => rw [Function.iterate_succ_apply', ih, hclose]

/-- Witness for C5: calling each stop twice from a live state equals
calling it once. -/
theorem stops_idempotent_witness :
    (1 : Nat) ≤ 2 ∧ pipeStop^[2] ⟨false, false⟩ = pipeStop ⟨false, false⟩ :=
  ⟨by decide, (stops_idempotent 2 (by decide)).1 ⟨false, false⟩⟩

/-- C6: the dimension normalisation run by `PipelineVP8.start` before the
encoder is constructed, and by `NDISource.SetOutputSize`, turns every odd
value into the next-lower even value and raises any result below 2 to 2;
the outcome is always an even value that is at least 2, and the
source-probed or configured dimensions are normalised exactly this way
before `NewVP8Encoder` receives them. -/
theorem dimension_normalisation (d w h cfgW cfgH : Int) :
    (Odd d → pipelineNormDim d = max 2 (d - 1)) ∧
    (Even d → pipelineNormDim d = max 2 d) ∧
    Even (pipelineNormDim d) ∧
    2 ≤ pipelineNormDim d ∧
    setOutputSizeDims w h = (pipelineNormDim w, pipelineNormDim h) ∧
    startEncoderDims cfgW cfgH none = (pipelineNormDim cfgW, pipelineNormDim cfgH) ∧
    (0 < w → 0 < h → startEncoderDims cfgW cfgH (some (w, h))
      = (pipelineNormDim w, pipelineNormDim h)) := by
  have hnorm : ∀ e : Int, pipelineNormDim e =
      if (if e % 2 ≠ 0 then e - 1 else e) < 2 then 2
      else (if e % 2 ≠ 0 then e - 1 else e) := fun _ => rfl
  refine ⟨?_, ?_, ?_, ?_, rfl, rfl, ?_⟩
  · intro hodd
    have h1 : d % 2 = 1 := Int.odd_iff.mp hodd
    rw [hnorm, if_pos (by omega : d % 2 ≠ 0)]
    by_cases hlt : d - 1 < 2
    · rw [if_pos hlt, (max_eq_left (by omega) : max 2 (d - 1) = 2)]
    · rw [if_neg hlt, (max_eq_right (by omega) : max 2 (d - 1) = d - 1)]
  · intro heven
    have h0 : d % 2 = 0 := Int.even_iff.mp heven
    rw [hnorm, if_neg (by omega : ¬ d % 2 ≠ 0)]
    by_cases hlt : d < 2
    · rw [if_pos hlt, (max_eq_left (by omega) : max 2 d = 2)]
    · rw [if_neg hlt, (max_eq_right (by omega) : max 2 d = d)]
  · rw [Int.even_iff, hnorm]
    split_ifs <;> omega
  · rw [hnorm]
    split_ifs <;> omega
  · intro hw hh
    unfold startEncoderDims
    simp [hw, hh]

/-- Witness for C6: width 5 (odd) normalises to 4 and a probed 1×720 frame
yields encoder dimensions 2×720. -/
theorem dimension_normalisation_witness :
    Odd (5 : Int) ∧ pipelineNormDim 5 = max 2 (5 - 1) ∧
    (0 < (1 : Int) → 0 < (720 : Int) →
      startEncoderDims 1280 720 (some (1, 720)) = (pipelineNormDim 1, pipelineNormDim 720)) :=
  ⟨by decide, (dimension_normalisation 5 1 720 1280 720).1 (by decide),
    (dimension_normalisation 5 1 720 1280 720).2.2.2.2.2.2⟩

/-- C2, counterexample: the claimed invariant
`sessions empty ⇔ idle timer armed ∨ stopped` fails in both directions at
reachable states.  Forward: right after `ensureMount` publishes the mount
(server.go line 545) the session set is empty but no timer is armed and
the mount is running — a state that is permanent when pipeline start
fails (lines 596–598).  Backward: a `teardownMountIfIdle` callback whose
`refCount()` check passed can commit its teardown after a concurrent
`addSession`, leaving a stopped mount with a non-empty session set. -/
theorem mount_claim_counterexample :
    (MountReach mountCreated ∧ ¬ mountInvClaim mountCreated) ∧
    (MountReach (mountCommitTeardown (mountAdd "a"
        (mountCheck (mountFireNoSess (armNoSess mountCreated))))) ∧
      (mountCommitTeardown (mountAdd "a"
        (mountCheck (mountFireNoSess (armNoSess mountCreated))))).stopped = true ∧
      (mountCommitTeardown (mountAdd "a"
        (mountCheck (mountFireNoSess (armNoSess mountCreated))))).sessions ≠ ∅ ∧
      ¬ mountInvClaim (mountCommitTeardown (mountAdd "a"
        (mountCheck (mountFireNoSess (armNoSess mountCreated)))))) := by
  refine ⟨⟨MountReach.created, by unfold mountInvClaim; decide⟩, ⟨?_, by decide, by decide,
    by unfold mountInvClaim; decide⟩⟩
  exact MountReach.teardownCommit _
    (MountReach.add _ "a"
      (MountReach.check _
        (MountReach.noSessFire _ (MountReach.armNoSessStep _ MountReach.created) (by decide))
        (by decide)))
    (by decide)

/-- C2, amended: in every reachable mount state, the idle timer is armed
only while the session set is empty — equivalently, whenever the session
set is non-empty, no idle timer is armed.  (The spec's full equivalence
fails in both directions; see the counterexample.) -/
theorem mount_nonempty_no_idle_timer (m : MountState) (h : MountReach m) :
    (m.idleArmed = true → m.sessions = ∅) ∧ (m.sessions ≠ ∅ → m.idleArmed = false) := by
  have main : m.idleArmed = true → m.sessions = ∅ := by
    induction h with
    | created => simp [mountCreated]
    | armNoSessStep m hm ih =>
        unfold armNoSess
        split <;> simpa using ih
    | add m id hm ih => simp [mountAdd]
    | remove m id hm hmem ih =>
        unfold mountRemove
        dsimp only
        intro harm
        split at harm
        · simp_all
        · have hempty : m.sessions = ∅ := ih harm
          simp [hempty]
    | idleFire m hm harm ih => simp [mountFireIdle]
    | noSessFire m hm harm ih => simpa [mountFireNoSess] using ih
    | check m hm hcb ih =>
        unfold mountCheck
        split
        · simpa using ih
        · split <;> simpa using ih
    | teardownCommit m hm hp ih => simpa [mountCommitTeardown] using ih
  refine ⟨main, fun hne => ?_⟩
  by_contra hidle
  exact hne (main (by simpa using hidle))

/-- Witness for C2's amended invariant, at the reachable stopped mount
that still holds session `"a"`: the set is non-empty and indeed no idle
timer is armed. -/
theorem mount_nonempty_no_idle_timer_witness :
    (mountCommitTeardown (mountAdd "a"
        (mountCheck (mountFireNoSess (armNoSess mountCreated))))).sessions ≠ ∅ ∧
    (mountCommitTeardown (mountAdd "a"
        (mountCheck (mountFireNoSess (armNoSess mountCreated))))).idleArmed = false :=
  ⟨by decide,
    (mount_nonempty_no_idle_timer _
      (MountReach.teardownCommit _
        (MountReach.add _ "a"
          (MountReach.check _
            (MountReach.noSessFire _ (MountReach.armNoSessStep _ MountReach.created)
              (by decide))
            (by decide)))
        (by decide))).2 (by decide)⟩

/-- C3, counterexample: a tick on which the encoder returns an error
increments `frames_in` but neither `frames_encoded` nor `frames_dropped`,
even though the pulled buffer (16 bytes for a 2×2 BGRA frame) was large
enough — so "increments neither only when the tick was skipped because the
pulled buffer was too small" is false of `PipelineVP8.loop`. -/
theorem tick_error_breaks_claim :
    (tick PixFmt.bgra 2 2 (TickIn.frame 16 EncOut.err) Counters.zero).counters.framesIn = 1 ∧
    (tick PixFmt.bgra 2 2 (TickIn.frame 16 EncOut.err) Counters.zero).counters.framesEncoded
      = 0 ∧
    (tick PixFmt.bgra 2 2 (TickIn.frame 16 EncOut.err) Counters.zero).counters.framesDropped
      = 0 ∧
    ¬ (16 < requiredLen PixFmt.bgra 2 2) ∧
    ¬ claimTickCases PixFmt.bgra 2 2 (TickIn.frame 16 EncOut.err) Counters.zero := by
  refine ⟨by decide, by decide, by decide, by decide, ?_⟩
  intro hcc
  obtain ⟨len, enc, heq, hlt⟩ := hcc (by decide)
  cases heq
  exact absurd hlt (by decide)

/-- C3, amended: `frames_in ≥ frames_encoded + frames_dropped` is
preserved by every tick; each tick increments `frames_in` exactly once and
at most one of the other two counters: `frames_dropped` when the encoder
succeeded with zero access units, `frames_encoded` when it produced at
least one, and neither when the buffer was too small (tick skipped), the
source ended, or the encoder returned an error (loop exits). -/
theorem encoder_loop_counters (fmt : PixFmt) (w h : Nat) (inp : TickIn) (c : Counters)
    (hinv : countersInv c) :
    countersInv (tick fmt w h inp c).counters ∧
    (tick fmt w h inp c).counters.framesIn = c.framesIn + 1 ∧
    (inp = TickIn.srcEnd →
      (tick fmt w h inp c).counters.framesEncoded = c.framesEncoded ∧
      (tick fmt w h inp c).counters.framesDropped = c.framesDropped ∧
      (tick fmt w h inp c).status = TickStatus.terminated) ∧
    (∀ len enc, inp = TickIn.frame len enc → len < requiredLen fmt w h →
      (tick fmt w h inp c).counters.framesEncoded = c.framesEncoded ∧
      (tick fmt w h inp c).counters.framesDropped = c.framesDropped ∧
      (tick fmt w h inp c).status = TickStatus.next) ∧
    (∀ len, inp = TickIn.frame len EncOut.err → ¬ len < requiredLen fmt w h →
      (tick fmt w h inp c).counters.framesEncoded = c.framesEncoded ∧
      (tick fmt w h inp c).counters.framesDropped = c.framesDropped ∧
      (tick fmt w h inp c).status = TickStatus.terminated) ∧
    (∀ len n a, inp = TickIn.frame len (EncOut.packets n a) → ¬ len < requiredLen fmt w h →
      n = 0 →
      (tick fmt w h inp c).counters.framesDropped = c.framesDropped + 1 ∧
      (tick fmt w h inp c).counters.framesEncoded = c.framesEncoded) ∧
    (∀ len n a, inp = TickIn.frame len (EncOut.packets n a) → ¬ len < requiredLen fmt w h →
      n ≠ 0 →
      (tick fmt w h inp c).counters.framesEncoded = c.framesEncoded + 1 ∧
      (tick fmt w h inp c).counters.framesDropped = c.framesDropped) := by
  unfold countersInv at hinv
  refine ⟨?_, ?_, ?_, ?_, ?_, ?_, ?_⟩
  · unfold countersInv
    rcases inp with _ | ⟨len, enc⟩
    · simp [tick]
      omega
    · by_cases hl : len < requiredLen fmt w h
      · simp [tick, hl]
        omega
      · rcases enc with _ | ⟨n, a⟩
        · simp [tick, hl]
          omega
        · by_cases hn : n = 0 <;> simp [tick, hl, hn, incSamplesSent] <;> omega
  · rcases inp with _ | ⟨len, enc⟩
    · simp [tick]
    · by_cases hl : len < requiredLen fmt w h
      · simp [tick, hl]
      · rcases enc with _ | ⟨n, a⟩
        · simp [tick, hl]
        · by_cases hn : n = 0 <;> simp [tick, hl, hn, incSamplesSent]
  · intro hsrc
    subst hsrc
    simp [tick]
  · intro len enc hin hl
    subst hin
    simp [tick, hl]
  · intro len hin hl
    subst hin
    simp [tick, hl]
  · intro len n a hin hl hn
    subst hin
    subst hn
    simp [tick, hl, incSamplesSent]
  · intro len n a hin hl hn
    subst hin
    simp [tick, hl, hn, incSamplesSent]

/-- Witness for C3's amended theorem: starting from zero counters, a tick
whose encode produced one access unit preserves the invariant. -/
theorem encoder_loop_counters_witness :
    countersInv Counters.zero ∧
    countersInv (tick PixFmt.bgra 2 2 (TickIn.frame 16 (EncOut.packets 1 1))
      Counters.zero).counters :=
  ⟨by unfold countersInv; decide,
    (encoder_loop_counters PixFmt.bgra 2 2 (TickIn.frame 16 (EncOut.packets 1 1))
      Counters.zero (by unfold countersInv; decide)).1⟩

/-- C7: when the frame pulled from the source is smaller than the packed
size the declared dimensions and pixel format require (`w*h*2` for UYVY,
`w*h*4` for BGRA), the tick is skipped: the conversion and the encoder are
not invoked, only `frames_in` changes, and the loop continues to the next
tick; independently, the encoder's own `EncodeI420` guard rejects Y planes
shorter than `w*h` and U/V planes shorter than `(w/2)*(h/2)` instead of
reading out of bounds, and the loop's exact-size plane allocations always
pass that guard. -/
theorem tick_skipped_on_small_buffer (fmt : PixFmt) (w h len : Nat) (enc : EncOut)
    (c : Counters) (yl ul vl : Nat) (hlen : len < requiredLen fmt w h) :
    tick fmt w h (TickIn.frame len enc) c =
      ⟨{ c with framesIn := c.framesIn + 1 }, TickStatus.next, false, false⟩ ∧
    requiredLen PixFmt.bgra w h = w * h * 4 ∧
    requiredLen PixFmt.uyvy422 w h = w * h * 2 ∧
    (yl < w * h ∨ ul < (w / 2) * (h / 2) ∨ vl < (w / 2) * (h / 2) →
      encodeI420SizeOK w h yl ul vl = false) ∧
    encodeI420SizeOK w h (w * h) ((w / 2) * (h / 2)) ((w / 2) * (h / 2)) = true := by
  refine ⟨?_, rfl, rfl, ?_, ?_⟩
  · simp [tick, hlen]
  · intro hshort
    unfold encodeI420SizeOK
    simp only [decide_eq_false_iff_not, not_not]
    exact hshort
  · unfold encodeI420SizeOK
    simp

/-- Witness for C7: an 8-byte frame for a 2×2 BGRA tick (needs 16 bytes)
is skipped with only `frames_in` incremented. -/
theorem tick_skipped_on_small_buffer_witness :
    8 < requiredLen PixFmt.bgra 2 2 ∧
    tick PixFmt.bgra 2 2 (TickIn.frame 8 EncOut.err) Counters.zero =
      ⟨{ Counters.zero with framesIn := Counters.zero.framesIn + 1 },
        TickStatus.next, false, false⟩ :=
  ⟨by decide,
    (tick_skipped_on_small_buffer PixFmt.bgra 2 2 8 EncOut.err Counters.zero 0 0 0
      (by decide)).1⟩

/-- Equation: one ReplaceAll pass on a leading `--`. -/
lemma replaceDD_ddash (r : List Char) : replaceDD ('-' :: '-' :: r) = '-' :: replaceDD r := by
  rcases r with _ | ⟨c3, r2⟩ <;> rfl

/-- Equation: ReplaceAll on a singleton. -/
lemma replaceDD_one (c : Char) : replaceDD [c] = [c] := rfl

/-- Equation: ReplaceAll on a two-character head that is not `--`. -/
lemma replaceDD_cons_pair (c1 c2 : Char) (rest : List Char) (h : ¬ (c1 = '-' ∧ c2 = '-')) :
    replaceDD (c1 :: c2 :: rest) = c1 :: replaceDD (c2 :: rest) := by
  show replaceDDAux c1 (c2 :: rest) = c1 :: replaceDDAux c2 rest
  rw [replaceDDAux.eq_def]
  dsimp only
  rw [if_neg h]

/-- Equation: ReplaceAll walks past a head that is not a dash. -/
lemma replaceDD_cons_ne (c1 : Char) (rest : List Char) (h : ¬ c1 = '-') :
    replaceDD (c1 :: rest) = c1 :: replaceDD rest := by
  rcases rest with _ | ⟨c2, r⟩
  · rfl
  · exact replaceDD_cons_pair c1 c2 r (fun hp => h hp.1)

/-- Equation: ReplaceAll walks past a dash not followed by a dash. -/
lemma replaceDD_dash_cons_ne (c2 : Char) (rest : List Char) (h : ¬ c2 = '-') :
    replaceDD ('-' :: c2 :: rest) = '-' :: replaceDD (c2 :: rest) :=
  replaceDD_cons_pair '-' c2 rest (fun hp => h hp.2)

/-- Equation: Contains finds a leading `--`. -/
lemma containsDD_ddash (r : List Char) : containsDD ('-' :: '-' :: r) = true := rfl

/-- Equation: Contains on a singleton. -/
lemma containsDD_one (c : Char) : containsDD [c] = false := rfl

/-- Equation: Contains skips a two-character head that is not `--`. -/
lemma containsDD_cons_pair (c1 c2 : Char) (rest : List Char) (h : ¬ (c1 = '-' ∧ c2 = '-')) :
    containsDD (c1 :: c2 :: rest) = containsDD (c2 :: rest) := by
  show containsDDAux c1 (c2 :: rest) = containsDDAux c2 rest
  rw [containsDDAux, if_neg h]

/-- Equation: collapsing drops the first dash of a `--`. -/
lemma dedupDashes_ddash (r : List Char) :
    dedupDashes ('-' :: '-' :: r) = dedupDashes ('-' :: r) := rfl

/-- Equation: collapsing keeps a singleton. -/
lemma dedupDashes_one (c : Char) : dedupDashes [c] = [c] := rfl

/-- Equation: collapsing keeps a two-character head that is not `--`. -/
lemma dedupDashes_cons_pair (c1 c2 : Char) (rest : List Char) (h : ¬ (c1 = '-' ∧ c2 = '-')) :
    dedupDashes (c1 :: c2 :: rest) = c1 :: dedupDashes (c2 :: rest) := by
  show dedupDashesAux c1 (c2 :: rest) = c1 :: dedupDashesAux c2 rest
  rw [dedupDashesAux, if_neg h]

/-- Equation: a dash followed by a non-dash is kept. -/
lemma dedupDashes_dash_cons_ne (c2 : Char) (rest : List Char) (h : ¬ c2 = '-') :
    dedupDashes ('-' :: c2 :: rest) = '-' :: dedupDashes (c2 :: rest) :=
  dedupDashes_cons_pair '-' c2 rest (fun hp => h hp.2)

/-- One ReplaceAll pass never lengthens the string. -/
lemma replaceDD_length_le : ∀ s : List Char, (replaceDD s).length ≤ s.length := by
  have H : ∀ n, ∀ s : List Char, s.length ≤ n → (replaceDD s).length ≤ s.length := by
    intro n
    induction n with
    | zero =>
        intro s hs
        rw [List.length_eq_zero.mp (Nat.le_zero.mp hs)]
        simp [show replaceDD [] = [] from rfl]
    | succ k ih =>
        intro s hs
        rcases s with _ | ⟨c1, _ | ⟨c2, rest⟩⟩
        · simp [show replaceDD [] = [] from rfl]
        · simp [replaceDD_one]
        · by_cases hdd : c1 = '-' ∧ c2 = '-'
          · obtain ⟨h1, h2⟩ := hdd
            subst h1
            subst h2
            rw [replaceDD_ddash]
            have := ih rest (by simp at hs; omega)
            simp only [List.length_cons]
            omega
          · rw [replaceDD_cons_pair c1 c2 rest hdd]
            have := ih (c2 :: rest) (by simp at hs ⊢; omega)
            simp only [List.length_cons] at this ⊢
            omega
  exact fun s => H s.length s le_rfl

/-- A productive ReplaceAll pass strictly shortens the string. -/
lemma replaceDD_length_lt : ∀ s : List Char, containsDD s = true →
    (replaceDD s).length < s.length := by
  have H : ∀ n, ∀ s : List Char, s.length ≤ n → containsDD s = true →
      (replaceDD s).length < s.length := by
    intro n
    induction n with
    | zero =>
        intro s hs hc
        rw [List.length_eq_zero.mp (Nat.le_zero.mp hs)] at hc
        simp [show containsDD [] = false from rfl] at hc
    | succ k ih =>
        intro s hs hc
        rcases s with _ | ⟨c1, _ | ⟨c2, rest⟩⟩
        · simp [show containsDD [] = false from rfl] at hc
        · simp [containsDD_one] at hc
        · by_cases hdd : c1 = '-' ∧ c2 = '-'
          · obtain ⟨h1, h2⟩ := hdd
            subst h1
            subst h2
            rw [replaceDD_ddash]
            have := replaceDD_length_le rest
            simp only [List.length_cons]
            omega
          · rw [replaceDD_cons_pair c1 c2 rest hdd]
            rw [containsDD_cons_pair c1 c2 rest hdd] at hc
            have := ih (c2 :: rest) (by simp at hs ⊢; omega) hc
            simp only [List.length_cons] at this ⊢
            omega
  exact fun s => H s.length s le_rfl

/-- A string with no `--` is already collapse-normal. -/
lemma dedupDashes_of_not_containsDD : ∀ s : List Char, containsDD s = false →
    dedupDashes s = s := by
  have H : ∀ n, ∀ s : List Char, s.length ≤ n → containsDD s = false →
      dedupDashes s = s := by
    intro n
    induction n with
    | zero =>
        intro s hs _
        rw [List.length_eq_zero.mp (Nat.le_zero.mp hs)]
        rfl
    | succ k ih =>
        intro s hs hc
        rcases s with _ | ⟨c1, _ | ⟨c2, rest⟩⟩
        · rfl
        · exact dedupDashes_one c1
        · by_cases hdd : c1 = '-' ∧ c2 = '-'
          · exfalso
            obtain ⟨h1, h2⟩ := hdd
            subst h1
            subst h2
            rw [containsDD_ddash] at hc
            exact Bool.noConfusion hc
          · rw [dedupDashes_cons_pair c1 c2 rest hdd]
            rw [containsDD_cons_pair c1 c2 rest hdd] at hc
            rw [ih (c2 :: rest) (by simp at hs ⊢; omega) hc]
  exact fun s => H s.length s le_rfl

/-- Collapsing after a leading dash swallows the whole leading dash run. -/
lemma dedupDashes_cons_dash : ∀ t : List Char,
    dedupDashes ('-' :: t) = '-' :: dedupDashes (t.dropWhile (fun c => c = '-')) := by
  intro t
  induction t with
  | nil => simp [dedupDashes_one, show dedupDashes [] = [] from rfl]
  | cons c r ih =>
      by_cases hc : c = '-'
      · subst hc
        rw [dedupDashes_ddash, ih]
        simp
      · rw [dedupDashes_dash_cons_ne c r hc]
        rw [List.dropWhile_cons_of_neg (by simp [hc])]

/-- Prepending a non-dash character commutes with collapsing. -/
lemma dedupDashes_cons_ne (c : Char) (hc : c ≠ '-') : ∀ t : List Char,
    dedupDashes (c :: t) = c :: dedupDashes t := by
  intro t
  rcases t with _ | ⟨c2, r⟩
  · simp [dedupDashes_one, show dedupDashes [] = [] from rfl]
  · exact dedupDashes_cons_pair c c2 r (fun hp => hc hp.1)

/-- Dropping the leading dash run commutes with one ReplaceAll pass. -/
lemma dropWhile_replaceDD : ∀ s : List Char,
    (replaceDD s).dropWhile (fun c => c = '-')
      = replaceDD (s.dropWhile (fun c => c = '-')) := by
  have H : ∀ n, ∀ s : List Char, s.length ≤ n →
      (replaceDD s).dropWhile (fun c => c = '-')
        = replaceDD (s.dropWhile (fun c => c = '-')) := by
    intro n
    induction n with
    | zero =>
        intro s hs
        rw [List.length_eq_zero.mp (Nat.le_zero.mp hs)]
        simp [show replaceDD [] = [] from rfl]
    | succ k ih =>
        intro s hs
        rcases s with _ | ⟨c1, _ | ⟨c2, rest⟩⟩
        · simp [show replaceDD [] = [] from rfl]
        · rw [replaceDD_one]
          by_cases hc : c1 = '-'
          · subst hc
            simp [List.dropWhile_cons, show replaceDD [] = [] from rfl]
          · simp [List.dropWhile_cons, hc, replaceDD_one]
        · by_cases hdd : c1 = '-' ∧ c2 = '-'
          · obtain ⟨h1, h2⟩ := hdd
            subst h1
            subst h2
            rw [replaceDD_ddash]
            rw [List.dropWhile_cons_of_pos (by simp), List.dropWhile_cons_of_pos (by simp),
              List.dropWhile_cons_of_pos (by simp)]
            exact ih rest (by simp at hs; omega)
          · have hstep := replaceDD_cons_pair c1 c2 rest hdd
            rw [hstep]
            by_cases h1 : c1 = '-'
            · subst h1
              have h2 : ¬ c2 = '-' := fun h => hdd ⟨rfl, h⟩
              rw [List.dropWhile_cons_of_pos (by simp), List.dropWhile_cons_of_pos (by simp)]
              rw [ih (c2 :: rest) (by simp at hs ⊢; omega)]
            · rw [List.dropWhile_cons_of_neg (by simp [h1]),
                List.dropWhile_cons_of_neg (by simp [h1]), hstep]
  exact fun s => H s.length s le_rfl

/-- One ReplaceAll pass does not change the collapse-normal form. -/
lemma dedupDashes_replaceDD : ∀ s : List Char,
    dedupDashes (replaceDD s) = dedupDashes s := by
  have H : ∀ n, ∀ s : List Char, s.length ≤ n →
      dedupDashes (replaceDD s) = dedupDashes s := by
    intro n
    induction n with
    | zero =>
        intro s hs
        rw [List.length_eq_zero.mp (Nat.le_zero.mp hs)]
        rw [show replaceDD [] = [] from rfl]
    | succ k ih =>
        intro s hs
        rcases s with _ | ⟨c1, _ | ⟨c2, rest⟩⟩
        · rw [show replaceDD [] = [] from rfl]
        · rw [replaceDD_one]
        · by_cases hdd : c1 = '-' ∧ c2 = '-'
          · obtain ⟨h1, h2⟩ := hdd
            subst h1
            subst h2
            rw [replaceDD_ddash, dedupDashes_ddash]
            rw [dedupDashes_cons_dash, dedupDashes_cons_dash, dropWhile_replaceDD]
            have hlen : (rest.dropWhile (fun c => c = '-')).length ≤ k := by
              have := (List.dropWhile_sublist (fun c => decide (c = '-')) (l := rest)).length_le
              simp at hs
              omega
            rw [ih _ hlen]
          · rw [replaceDD_cons_pair c1 c2 rest hdd]
            by_cases h1 : c1 = '-'
            · subst h1
              have h2 : ¬ c2 = '-' := fun h => hdd ⟨rfl, h⟩
              rw [dedupDashes_cons_dash, dedupDashes_cons_dash, dropWhile_replaceDD]
              rw [List.dropWhile_cons_of_neg (by simp [h2])]
              have hlen : (c2 :: rest).length ≤ k := by simp at hs ⊢; omega
              rw [ih _ hlen]
            · rw [dedupDashes_cons_ne c1 h1, dedupDashes_cons_ne c1 h1]
              have hlen : (c2 :: rest).length ≤ k := by simp at hs ⊢; omega
              rw [ih _ hlen]
  exact fun s => H s.length s le_rfl

/-- With fuel at least the string length, the ReplaceAll loop reaches its
fixpoint: every maximal dash run collapsed to one dash. -/
lemma collapseIter_eq_dedupDashes : ∀ (fuel : Nat) (s : List Char), s.length ≤ fuel →
    collapseIter fuel s = dedupDashes s := by
  intro fuel
  induction fuel with
  | zero =>
      intro s hs
      rw [List.length_eq_zero.mp (Nat.le_zero.mp hs)]
      rfl
  | succ k ih =>
      intro s hs
      rw [collapseIter]
      rcases hc : containsDD s with _ | _
      · rw [if_neg (by simp [hc])]
        exact (dedupDashes_of_not_containsDD s hc).symm
      · rw [if_pos (by simp [hc])]
        have hlt := replaceDD_length_lt s hc
        rw [ih (replaceDD s) (by omega), dedupDashes_replaceDD]

/-- The shared slug body computes the spec's normal form. -/
lemma slugCore_eq_slugSpec (base : String) : slugCore base = slugSpec base := by
  unfold slugCore slugSpec
  dsimp only
  rw [collapseIter_eq_dedupDashes _ _ le_rfl]

/-- C9, counterexample: with both the source name and the URL empty, the
code slugs a freshly generated random UUID (server.go lines 716–718), so
the variant key is that UUID — not the slug of the name or URL, which
would be the claimed `"src"`. -/
theorem slug_uuid_fallback_breaks_claim :
    slugSpec "" = "src" ∧
    slugKey "" "" "d2719f4e-0c8b-4b0e-9c5a-1f2e3d4c5b6a"
      = "d2719f4e-0c8b-4b0e-9c5a-1f2e3d4c5b6a" ∧
    slugKey "" "" "d2719f4e-0c8b-4b0e-9c5a-1f2e3d4c5b6a" ≠ "src" := by decide

/-- C9, amended: when the name and URL are not both empty, the variant key
is exactly the spec's slug of the URL (or, when the URL is empty, of the
name): lowercased, every unsafe character collapsed to `-`, dash runs
collapsed, leading and trailing dashes removed, and an empty result
replaced by `"src"`.  When both are empty, the code slugs a freshly
generated random UUID instead, so the key is that UUID's slug, not
`"src"`. -/
theorem slugKey_matches_spec (name url uuid : String) :
    (¬ (name = "" ∧ url = "") →
      slugKey name url uuid = slugSpec (if url ≠ "" then url else name)) ∧
    (name = "" → url = "" → slugKey name url uuid = slugSpec uuid) := by
  constructor
  · intro h
    unfold slugKey
    by_cases hu : url = ""
    · have hn : ¬ name = "" := fun hnm => h ⟨hnm, hu⟩
      rw [show (if url ≠ "" then url else if name ≠ "" then name else uuid) = name by
          rw [if_neg (by simp [hu]), if_pos hn],
        show (if url ≠ "" then url else name) = name by rw [if_neg (by simp [hu])]]
      exact slugCore_eq_slugSpec name
    · rw [show (if url ≠ "" then url else if name ≠ "" then name else uuid) = url by
          rw [if_pos hu],
        show (if url ≠ "" then url else name) = url by rw [if_pos hu]]
      exact slugCore_eq_slugSpec url
  · intro hn hu
    unfold slugKey
    rw [show (if url ≠ "" then url else if name ≠ "" then name else uuid) = uuid by
      rw [if_neg (by simp [hu]), if_neg (by simp [hn])]]
    exact slugCore_eq_slugSpec uuid

/-- Flat-index decoding: dividing a row-major index by the row width. -/
lemma rowcol_div (w row col : Nat) (h : col < w) : (row * w + col) / w = row := by
  have hw : 0 < w := Nat.lt_of_le_of_lt (Nat.zero_le col) h
  rw [show row * w + col = col + w * row by ring]
  rw [Nat.add_mul_div_left col row hw, Nat.div_eq_of_lt h]
  exact Nat.zero_add row

/-- Flat-index decoding: the remainder of a row-major index. -/
lemma rowcol_mod (w row col : Nat) (h : col < w) : (row * w + col) % w = col := by
  rw [show row * w + col = col + w * row by ring]
  rw [Nat.add_mul_mod_self_left]
  exact Nat.mod_eq_of_lt h

/-- Reading a block-constant BGRA image at pixel `(row, col)` and channel
`k` yields channel `k` of that block's colour. -/
lemma mkBlockBGRA_at (f : Nat → Nat → Int × Int × Int) (w row col k : Nat)
    (hcol : col < w) (hk : k < 4) :
    mkBlockBGRA f w ((row * w + col) * 4 + k) = chanSel (f (row / 2) (col / 2)) k := by
  unfold mkBlockBGRA
  have h1 : ((row * w + col) * 4 + k) / 4 = row * w + col := by omega
  have h2 : ((row * w + col) * 4 + k) % 4 = k := by omega
  rw [h1, h2, rowcol_div w row col hcol, rowcol_mod w row col hcol]

/-- The luma `BGRAtoI420` computes at a pixel of a block-constant image is
the luma of that pixel's colour. -/
lemma bgraY_block (f : Nat → Nat → Int × Int × Int) (w row col : Nat) (hcol : col < w) :
    bgraYAt (mkBlockBGRA f w) w row col
      = clamp8 (shr8 (66 * (f (row / 2) (col / 2)).2.2 + 129 * (f (row / 2) (col / 2)).2.1
          + 25 * (f (row / 2) (col / 2)).1 + 128) + 16) := by
  have e0 : mkBlockBGRA f w ((row * w + col) * 4) = (f (row / 2) (col / 2)).1 := by
    simpa [chanSel] using mkBlockBGRA_at f w row col 0 hcol (by omega)
  have e1 : mkBlockBGRA f w ((row * w + col) * 4 + 1) = (f (row / 2) (col / 2)).2.1 := by
    simpa [chanSel] using mkBlockBGRA_at f w row col 1 hcol (by omega)
  have e2 : mkBlockBGRA f w ((row * w + col) * 4 + 2) = (f (row / 2) (col / 2)).2.2 := by
    simpa [chanSel] using mkBlockBGRA_at f w row col 2 hcol (by omega)
  unfold bgraYAt
  dsimp only
  rw [e0, e1, e2]

/-- In a block-constant image, each of the four pixels of the 2×2 chroma
block at `(cy, cx)` reads that block's colour. -/
lemma mkBlockBGRA_block_read (f : Nat → Nat → Int × Int × Int) (w cy cx : Nat)
    (hw2 : w % 2 = 0) (hcx : cx < w / 2) :
    ∀ dy dx ch : Nat, dy < 2 → dx < 2 → ch < 4 →
      mkBlockBGRA f w (((2 * cy + dy) * w + (2 * cx + dx)) * 4 + ch)
        = chanSel (f cy cx) ch := by
  intro dy dx ch hdy hdx hch
  have hcol : 2 * cx + dx < w := by omega
  rw [mkBlockBGRA_at f w (2 * cy + dy) (2 * cx + dx) ch hcol hch]
  rw [show (2 * cy + dy) / 2 = cy by omega, show (2 * cx + dx) / 2 = cx by omega]

/-- The chroma U `BGRAtoI420` computes for a 2×2-constant block is the
chroma of the block's colour (the block sums are four equal summands). -/
lemma bgraU_block (f : Nat → Nat → Int × Int × Int) (w cy cx : Nat)
    (hw2 : w % 2 = 0) (hcx : cx < w / 2) :
    bgraUAt (mkBlockBGRA f w) w cy cx
      = clamp8 (shr8 (-38 * shr2 (4 * (f cy cx).2.2) - 74 * shr2 (4 * (f cy cx).2.1)
          + 112 * shr2 (4 * (f cy cx).1) + 128) + 128) := by
  have hr := mkBlockBGRA_block_read f w cy cx hw2 hcx
  have hA0 : mkBlockBGRA f w ((2 * cy * w + 2 * cx) * 4) = (f cy cx).1 := by
    simpa [chanSel] using hr 0 0 0 (by omega) (by omega) (by omega)
  have hB0 : mkBlockBGRA f w ((2 * cy * w + (2 * cx + 1)) * 4) = (f cy cx).1 := by
    simpa [chanSel] using hr 0 1 0 (by omega) (by omega) (by omega)
  have hC0 : mkBlockBGRA f w (((2 * cy + 1) * w + 2 * cx) * 4) = (f cy cx).1 := by
    simpa [chanSel] using hr 1 0 0 (by omega) (by omega) (by omega)
  have hD0 : mkBlockBGRA f w (((2 * cy + 1) * w + (2 * cx + 1)) * 4) = (f cy cx).1 := by
    simpa [chanSel] using hr 1 1 0 (by omega) (by omega) (by omega)
  have hA1 : mkBlockBGRA f w ((2 * cy * w + 2 * cx) * 4 + 1) = (f cy cx).2.1 := by
    simpa [chanSel] using hr 0 0 1 (by omega) (by omega) (by omega)
  have hB1 : mkBlockBGRA f w ((2 * cy * w + (2 * cx + 1)) * 4 + 1) = (f cy cx).2.1 := by
    simpa [chanSel] using hr 0 1 1 (by omega) (by omega) (by omega)
  have hC1 : mkBlockBGRA f w (((2 * cy + 1) * w + 2 * cx) * 4 + 1) = (f cy cx).2.1 := by
    simpa [chanSel] using hr 1 0 1 (by omega) (by omega) (by omega)
  have hD1 : mkBlockBGRA f w (((2 * cy + 1) * w + (2 * cx + 1)) * 4 + 1) = (f cy cx).2.1 := by
    simpa [chanSel] using hr 1 1 1 (by omega) (by omega) (by omega)
  have hA2 : mkBlockBGRA f w ((2 * cy * w + 2 * cx) * 4 + 2) = (f cy cx).2.2 := by
    simpa [chanSel] using hr 0 0 2 (by omega) (by omega) (by omega)
  have hB2 : mkBlockBGRA f w ((2 * cy * w + (2 * cx + 1)) * 4 + 2) = (f cy cx).2.2 := by
    simpa [chanSel] using hr 0 1 2 (by omega) (by omega) (by omega)
  have hC2 : mkBlockBGRA f w (((2 * cy + 1) * w + 2 * cx) * 4 + 2) = (f cy cx).2.2 := by
    simpa [chanSel] using hr 1 0 2 (by omega) (by omega) (by omega)
  have hD2 : mkBlockBGRA f w (((2 * cy + 1) * w + (2 * cx + 1)) * 4 + 2) = (f cy cx).2.2 := by
    simpa [chanSel] using hr 1 1 2 (by omega) (by omega) (by omega)
  have hsum : ∀ x : Int, x + x + x + x = 4 * x := fun x => by ring
  unfold bgraUAt bgraBlockSums
  dsimp only
  simp only [Nat.add_zero]
  rw [hA0, hB0, hC0, hD0, hA1, hB1, hC1, hD1, hA2, hB2, hC2, hD2]
  rw [hsum ((f cy cx).1), hsum ((f cy cx).2.1), hsum ((f cy cx).2.2)]

/-- The chroma V for a 2×2-constant block, analogously. -/
lemma bgraV_block (f : Nat → Nat → Int × Int × Int) (w cy cx : Nat)
    (hw2 : w % 2 = 0) (hcx : cx < w / 2) :
    bgraVAt (mkBlockBGRA f w) w cy cx
      = clamp8 (shr8 (112 * shr2 (4 * (f cy cx).2.2) - 94 * shr2 (4 * (f cy cx).2.1)
          - 18 * shr2 (4 * (f cy cx).1) + 128) + 128) := by
  have hr := mkBlockBGRA_block_read f w cy cx hw2 hcx
  have hA0 : mkBlockBGRA f w ((2 * cy * w + 2 * cx) * 4) = (f cy cx).1 := by
    simpa [chanSel] using hr 0 0 0 (by omega) (by omega) (by omega)
  have hB0 : mkBlockBGRA f w ((2 * cy * w + (2 * cx + 1)) * 4) = (f cy cx).1 := by
    simpa [chanSel] using hr 0 1 0 (by omega) (by omega) (by omega)
  have hC0 : mkBlockBGRA f w (((2 * cy + 1) * w + 2 * cx) * 4) = (f cy cx).1 := by
    simpa [chanSel] using hr 1 0 0 (by omega) (by omega) (by omega)
  have hD0 : mkBlockBGRA f w (((2 * cy + 1) * w + (2 * cx + 1)) * 4) = (f cy cx).1 := by
    simpa [chanSel] using hr 1 1 0 (by omega) (by omega) (by omega)
  have hA1 : mkBlockBGRA f w ((2 * cy * w + 2 * cx) * 4 + 1) = (f cy cx).2.1 := by
    simpa [chanSel] using hr 0 0 1 (by omega) (by omega) (by omega)
  have hB1 : mkBlockBGRA f w ((2 * cy * w + (2 * cx + 1)) * 4 + 1) = (f cy cx).2.1 := by
    simpa [chanSel] using hr 0 1 1 (by omega) (by omega) (by omega)
  have hC1 : mkBlockBGRA f w (((2 * cy + 1) * w + 2 * cx) * 4 + 1) = (f cy cx).2.1 := by
    simpa [chanSel] using hr 1 0 1 (by omega) (by omega) (by omega)
  have hD1 : mkBlockBGRA f w (((2 * cy + 1) * w + (2 * cx + 1)) * 4 + 1) = (f cy cx).2.1 := by
    simpa [chanSel] using hr 1 1 1 (by omega) (by omega) (by omega)
  have hA2 : mkBlockBGRA f w ((2 * cy * w + 2 * cx) * 4 + 2) = (f cy cx).2.2 := by
    simpa [chanSel] using hr 0 0 2 (by omega) (by omega) (by omega)
  have hB2 : mkBlockBGRA f w ((2 * cy * w + (2 * cx + 1)) * 4 + 2) = (f cy cx).2.2 := by
    simpa [chanSel] using hr 0 1 2 (by omega) (by omega) (by omega)
  have hC2 : mkBlockBGRA f w (((2 * cy + 1) * w + 2 * cx) * 4 + 2) = (f cy cx).2.2 := by
    simpa [chanSel] using hr 1 0 2 (by omega) (by omega) (by omega)
  have hD2 : mkBlockBGRA f w (((2 * cy + 1) * w + (2 * cx + 1)) * 4 + 2) = (f cy cx).2.2 := by
    simpa [chanSel] using hr 1 1 2 (by omega) (by omega) (by omega)
  have hsum : ∀ x : Int, x + x + x + x = 4 * x := fun x => by ring
  unfold bgraVAt bgraBlockSums
  dsimp only
  simp only [Nat.add_zero]
  rw [hA0, hB0, hC0, hD0, hA1, hB1, hC1, hD1, hA2, hB2, hC2, hD2]
  rw [hsum ((f cy cx).1), hsum ((f cy cx).2.1), hsum ((f cy cx).2.2)]

/-- On a block-constant even-width image, the I420 pixel reconstructed at
`(yy, xx)` is exactly the per-colour round trip of that pixel's colour. -/
lemma i420Pixel_block (f : Nat → Nat → Int × Int × Int) (w : Nat)
    (hw2 : w % 2 = 0) (hw0 : 0 < w) (yy xx : Nat) (hxx : xx < w) :
    i420PixelAt (bgraToI420y (mkBlockBGRA f w) w) (bgraToI420u (mkBlockBGRA f w) w)
        (bgraToI420v (mkBlockBGRA f w) w) w yy xx
      = roundTripColour (f (yy / 2) (xx / 2)) := by
  have hhalf : xx / 2 < w / 2 := by omega
  have hY : bgraToI420y (mkBlockBGRA f w) w (yy * w + xx)
      = clamp8 (shr8 (66 * (f (yy / 2) (xx / 2)).2.2 + 129 * (f (yy / 2) (xx / 2)).2.1
          + 25 * (f (yy / 2) (xx / 2)).1 + 128) + 16) := by
    unfold bgraToI420y
    rw [rowcol_div w yy xx hxx, rowcol_mod w yy xx hxx]
    exact bgraY_block f w yy xx hxx
  have hU : bgraToI420u (mkBlockBGRA f w) w (yy / 2 * (w / 2) + xx / 2)
      = clamp8 (shr8 (-38 * shr2 (4 * (f (yy / 2) (xx / 2)).2.2)
          - 74 * shr2 (4 * (f (yy / 2) (xx / 2)).2.1)
          + 112 * shr2 (4 * (f (yy / 2) (xx / 2)).1) + 128) + 128) := by
    unfold bgraToI420u
    rw [rowcol_div (w / 2) (yy / 2) (xx / 2) hhalf, rowcol_mod (w / 2) (yy / 2) (xx / 2) hhalf]
    exact bgraU_block f w (yy / 2) (xx / 2) hw2 hhalf
  have hV : bgraToI420v (mkBlockBGRA f w) w (yy / 2 * (w / 2) + xx / 2)
      = clamp8 (shr8 (112 * shr2 (4 * (f (yy / 2) (xx / 2)).2.2)
          - 94 * shr2 (4 * (f (yy / 2) (xx / 2)).2.1)
          - 18 * shr2 (4 * (f (yy / 2) (xx / 2)).1) + 128) + 128) := by
    unfold bgraToI420v
    rw [rowcol_div (w / 2) (yy / 2) (xx / 2) hhalf, rowcol_mod (w / 2) (yy / 2) (xx / 2) hhalf]
    exact bgraV_block f w (yy / 2) (xx / 2) hw2 hhalf
  unfold i420PixelAt roundTripColour
  dsimp only
  rw [hY, hU, hV]

/-- The round trip of a block-constant even-width image, read at any flat
offset, equals the per-colour round trip at that offset's channel. -/
lemma roundTrip_block (f : Nat → Nat → Int × Int × Int) (w : Nat)
    (hw2 : w % 2 = 0) (hw0 : 0 < w) (off : Nat) :
    roundTrip (mkBlockBGRA f w) w off
      = chanSel (roundTripColour (f (off / 4 / w / 2) (off / 4 % w / 2))) (off % 4) := by
  unfold roundTrip i420ToBGRAflat
  rw [i420Pixel_block f w hw2 hw0 (off / 4 / w) (off / 4 % w) (Nat.mod_lt _ hw0)]

/-- For a saturated colour, the per-colour round trip moves each colour
channel by at most one (checked over all eight extreme colours). -/
lemma roundTripColour_close (c : Int × Int × Int) (hc : saturated c) (k : Nat) (hk : k < 3) :
    (chanSel (roundTripColour c) k - chanSel c k).natAbs ≤ 1 := by
  obtain ⟨cb, cg, cr⟩ := c
  obtain ⟨hb, hg, hr⟩ := hc
  have hk3 : k = 0 ∨ k = 1 ∨ k = 2 := by omega
  rcases hb with rfl | rfl <;> rcases hg with rfl | rfl <;> rcases hr with rfl | rfl <;>
    rcases hk3 with rfl | rfl | rfl <;> decide

/-- C8, counterexample: the claim fails on a 2×2 image whose channels are
all at saturated extremes but whose 2×2 chroma block mixes pure red and
pure blue — the red pixel's R channel (byte 2) comes back as 152 instead
of 255, an error of 103. -/
theorem roundtrip_saturated_breaks_claim :
    (∀ i, i < 16 → i % 4 < 3 → (cexBGRA i = 0 ∨ cexBGRA i = 255)) ∧
    cexBGRA 2 = 255 ∧
    roundTrip cexBGRA 2 2 = 152 ∧
    ¬ (roundTrip cexBGRA 2 2 - cexBGRA 2).natAbs ≤ 1 := by decide

/-- C8, amended: composing the portable BGRA→I420 conversion with the
portable I420→BGRA conversion is the identity to within ±1 per colour
channel on every even-dimension image that is constant on each 2×2 pixel
block with every channel at a saturated extreme (alpha is not a colour
channel; chroma subsampling makes mixed 2×2 blocks unrecoverable, as the
counterexample shows). -/
theorem roundtrip_block_saturated (w h : Nat) (f : Nat → Nat → Int × Int × Int)
    (hw2 : w % 2 = 0) (hw0 : 0 < w) (hh2 : h % 2 = 0)
    (hsat : ∀ i j, saturated (f i j)) (off : Nat)
    (hoff : off < w * h * 4) (hk : off % 4 < 3) :
    (roundTrip (mkBlockBGRA f w) w off - mkBlockBGRA f w off).natAbs ≤ 1 := by
  rw [roundTrip_block f w hw2 hw0 off]
  unfold mkBlockBGRA
  exact roundTripColour_close _ (hsat _ _) _ hk

/-- Witness for C8's amended theorem: the all-white 2×2 image round-trips
its blue channel at pixel 0 within ±1. -/
theorem roundtrip_block_saturated_witness :
    (2 : Nat) % 2 = 0 ∧ 0 < (2 : Nat) ∧ (0 : Nat) < 2 * 2 * 4 ∧ (0 : Nat) % 4 < 3 ∧
    (roundTrip (mkBlockBGRA (fun _ _ => ((255 : Int), 255, 255)) 2) 2 0
      - mkBlockBGRA (fun _ _ => ((255 : Int), 255, 255)) 2 0).natAbs ≤ 1 :=
  ⟨rfl, by decide, by decide, by decide,
    roundtrip_block_saturated 2 2 (fun _ _ => (255, 255, 255)) (by decide) (by decide)
      (by decide) (fun _ _ => ⟨Or.inr rfl, Or.inr rfl, Or.inr rfl⟩) 0 (by decide) (by decide)⟩

/-- Witness for C9: a display name with spaces, parentheses, uppercase and
dashes slugs to the spec's normal form; a Kelvin-sign rune (U+212A)
lowercases to `k` and is kept, as in Go. -/
theorem slugKey_matches_spec_witness :
    ¬ (("NDI Source (CAM-1)" : String) = "" ∧ ("" : String) = "") ∧
    slugKey "NDI Source (CAM-1)" "" "u"
      = slugSpec (if ("" : String) ≠ "" then "" else "NDI Source (CAM-1)") ∧
    slugKey "NDI Source (CAM-1)" "" "u" = "ndi-source-cam-1" ∧
    slugKey "!!!" "" "u" = "src" ∧
    slugCore (String.mk ['3', '0', ' ', Char.ofNat 0x212A]) = "30-k" :=
  ⟨by decide, (slugKey_matches_spec "NDI Source (CAM-1)" "" "u").1 (by decide),
    by decide, by decide, by decide⟩

end WHEP
